import Mathlib

/-!
Shallow embedding of the "Cinema Insights" dashboard (src/yolo.py): the movie
catalog, the recommendation query engine, password hashing and verification,
the credential store with registration and login, and the session rating
ledger, together with proofs of the specified properties.
-/

set_option linter.unusedVariables false
set_option maxRecDepth 1000000

open List (Perm Sublist)
open scoped List

/-! ## Data model: movie records and the fixed catalog (`load_data`) -/

/-- One row of the `movies` DataFrame built by `load_data`.  Ratings and
revenues carry one decimal digit in the source, so exact rationals model the
Python floats faithfully on all the values and comparisons that occur. -/
structure Movie where
  title : String
  genre : String
  year : Int
  rating : ℚ
  votes : Nat
  director : String
  runtime : Nat
  revenue : ℚ
deriving DecidableEq, Repr

/-- The ten-movie catalog from `load_data`, row by row in DataFrame order.
One-decimal values such as `9.3` are written `mkRat 93 10` because Mathlib
keeps decimal literals for `ℚ` irreducible, which would block evaluation. -/
def load_data : List Movie :=
  [ ⟨"The Shawshank Redemption", "Drama", 1994, mkRat 93 10, 2500000, "Frank Darabont", 142, mkRat 583 10⟩,
    ⟨"The Godfather", "Crime", 1972, mkRat 92 10, 1700000, "Francis Ford Coppola", 175, mkRat 2451 10⟩,
    ⟨"The Dark Knight", "Action", 2008, mkRat 90 10, 2300000, "Christopher Nolan", 152, mkRat 10046 10⟩,
    ⟨"Pulp Fiction", "Crime", 1994, mkRat 89 10, 1900000, "Quentin Tarantino", 154, mkRat 2139 10⟩,
    ⟨"Forrest Gump", "Drama", 1994, mkRat 88 10, 1800000, "Robert Zemeckis", 142, mkRat 6779 10⟩,
    ⟨"Inception", "Action", 2010, mkRat 88 10, 2100000, "Christopher Nolan", 148, mkRat 8368 10⟩,
    ⟨"The Matrix", "Sci-Fi", 1999, mkRat 87 10, 1700000, "Lana Wachowski", 136, mkRat 4635 10⟩,
    ⟨"Goodfellas", "Crime", 1990, mkRat 87 10, 1000000, "Martin Scorsese", 146, mkRat 471 10⟩,
    ⟨"The Silence of the Lambs", "Thriller", 1991, mkRat 86 10, 1300000, "Jonathan Demme", 118, mkRat 2727 10⟩,
    ⟨"Star Wars: Episode V", "Sci-Fi", 1980, mkRat 87 10, 1200000, "Irvin Kershner", 124, mkRat 5384 10⟩ ]

/-! ## Case-insensitive substring containment

`movies['genre'].str.contains(favorite_genre, case=False)` tests, for each
genre cell, whether the pattern occurs in it ignoring case (the genre labels
are plain ASCII words, so regex search coincides with substring search and
Python case folding coincides with ASCII lowercasing). -/

/-- Does the character list start with the pattern (first argument)? -/
def startsWithL : List Char → List Char → Bool
  | [], _ => true
  | _ :: _, [] => false
  | p :: ps, c :: cs => p == c && startsWithL ps cs

/-- Does the pattern `pat` occur as a contiguous run inside the list?
The empty pattern occurs in every list, as in Python. -/
def containsL (pat : List Char) : List Char → Bool
  | [] => pat.isEmpty
  | c :: cs => startsWithL pat (c :: cs) || containsL pat cs

/-- Case-insensitive substring test: `s` contains `pat` ignoring case. -/
def containsCI (s pat : String) : Bool :=
  containsL (pat.data.map Char.toLower) (s.data.map Char.toLower)

/-! ## The recommendation query (`get_recommendations`)

`get_recommendations` builds a boolean mask (genre contains the favourite
genre case-insensitively, rating at least the floor, year inside the
inclusive range), then `sort_values('rating', ascending=False).head(5)`.

For a frame of fewer than 16 rows numpy's default quicksort runs its
insertion-sort phase only, which is stable, and pandas implements a
descending sort by reversing the rows, argsorting ascending, and reversing
the resulting indexer; the composition is exactly the stable descending
sort: rows ordered by decreasing rating, rows of equal rating kept in their
original frame order.  `insertRatingDesc`/`sortRatingDesc` implement that
stable descending sort. -/

/-- The row predicate of the boolean mask in `get_recommendations`. -/
def recPred (favorite_genre : String) (min_rating : ℚ) (years_range : Int × Int)
    (m : Movie) : Bool :=
  containsCI m.genre favorite_genre && decide (min_rating ≤ m.rating) &&
    decide (years_range.1 ≤ m.year) && decide (m.year ≤ years_range.2)

/-- Insert a row into a (descending-sorted) list: it goes in front of the
first row of strictly smaller rating, hence after every earlier row of equal
rating — the stable choice. -/
def insertRatingDesc (m : Movie) : List Movie → List Movie
  | [] => [m]
  | x :: xs => if m.rating < x.rating then x :: insertRatingDesc m xs else m :: x :: xs

/-- Stable sort by decreasing rating (`sort_values('rating', ascending=False)`
as it behaves on this sub-16-row frame). -/
def sortRatingDesc : List Movie → List Movie
  | [] => []
  | x :: xs => insertRatingDesc x (sortRatingDesc xs)

/-- `get_recommendations(movies, favorite_genre, min_rating, years_range)`:
filter by the mask, sort by rating descending, keep the first five rows. -/
def get_recommendations (movies : List Movie) (favorite_genre : String)
    (min_rating : ℚ) (years_range : Int × Int) : List Movie :=
  (sortRatingDesc (movies.filter (recPred favorite_genre min_rating years_range))).take 5

/-! ## SHA-256 (`hashlib.sha256(...).hexdigest()`)

`make_hashes` UTF-8-encodes the password (`str.encode`), hashes the bytes
with SHA-256 and renders the digest as 64 lowercase hex characters
(`hexdigest`).  The hash is implemented below on `Nat` with explicit
`% 2 ^ 32` wrapping. -/

/-- Truncate to a 32-bit word. -/
def w32 (n : Nat) : Nat := n % 4294967296

/-- Right-rotation of a 32-bit word by `k` places. -/
def rotr32 (k x : Nat) : Nat := w32 ((x >>> k) ||| (x <<< (32 - k)))

/-- SHA-256 choice function. -/
def ch32 (x y z : Nat) : Nat := (x &&& y) ^^^ ((x ^^^ 4294967295) &&& z)

/-- SHA-256 majority function. -/
def maj32 (x y z : Nat) : Nat := (x &&& y) ^^^ (x &&& z) ^^^ (y &&& z)

/-- SHA-256 Σ0. -/
def bSig0 (x : Nat) : Nat := rotr32 2 x ^^^ rotr32 13 x ^^^ rotr32 22 x

/-- SHA-256 Σ1. -/
def bSig1 (x : Nat) : Nat := rotr32 6 x ^^^ rotr32 11 x ^^^ rotr32 25 x

/-- SHA-256 σ0. -/
def sSig0 (x : Nat) : Nat := rotr32 7 x ^^^ rotr32 18 x ^^^ (x >>> 3)

/-- SHA-256 σ1. -/
def sSig1 (x : Nat) : Nat := rotr32 17 x ^^^ rotr32 19 x ^^^ (x >>> 10)

/-- Merkle–Damgård padding: a `0x80` byte, zeros to 56 mod 64, then the
bit length as eight big-endian bytes. -/
def sha256Pad (msg : List Nat) : List Nat :=
  msg ++ [128] ++ List.replicate ((64 - (msg.length + 9) % 64) % 64) 0 ++
    (List.range 8).map (fun i => ((8 * msg.length) >>> (8 * (7 - i))) % 256)

/-- Split into 64-byte blocks.  The fuel argument (initially the length)
only serves to make the recursion structural; one block consumes 64 bytes,
so the fuel never runs out before the list does. -/
def chunksGo : Nat → List Nat → List (List Nat)
  | 0, _ => []
  | fuel + 1, l => if l.isEmpty then [] else l.take 64 :: chunksGo fuel (l.drop 64)

/-- The 64-byte blocks of a padded message. -/
def chunks64 (l : List Nat) : List (List Nat) := chunksGo l.length l

/-- Big-endian 32-bit words of a block. -/
def bytesToWords : List Nat → List Nat
  | b0 :: b1 :: b2 :: b3 :: rest =>
      (b0 * 16777216 + b1 * 65536 + b2 * 256 + b3) :: bytesToWords rest
  | _ => []

/-- Extend the 16 block words by `n` further schedule words. -/
def extendWords : Nat → List Nat → List Nat
  | 0, ws => ws
  | n + 1, ws =>
      extendWords n (ws ++ [w32 (sSig1 (ws.getD (ws.length - 2) 0) +
        ws.getD (ws.length - 7) 0 + sSig0 (ws.getD (ws.length - 15) 0) +
        ws.getD (ws.length - 16) 0)])

/-- The 64-word message schedule of a block. -/
def schedule (chunk : List Nat) : List Nat := extendWords 48 (bytesToWords chunk)

/-- The eight 32-bit working variables of the compression function. -/
structure Sha8 where
  a : Nat
  b : Nat
  c : Nat
  d : Nat
  e : Nat
  f : Nat
  g : Nat
  h : Nat
deriving DecidableEq, Repr

/-- The 64 SHA-256 round constants (FIPS 180-4), written in decimal. -/
def sha256K : List Nat :=
  [1116352408, 1899447441, 3049323471, 3921009573,
   961987163, 1508970993, 2453635748, 2870763221,
   3624381080, 310598401, 607225278, 1426881987,
   1925078388, 2162078206, 2614888103, 3248222580,
   3835390401, 4022224774, 264347078, 604807628,
   770255983, 1249150122, 1555081692, 1996064986,
   2554220882, 2821834349, 2952996808, 3210313671,
   3336571891, 3584528711, 113926993, 338241895,
   666307205, 773529912, 1294757372, 1396182291,
   1695183700, 1986661051, 2177026350, 2456956037,
   2730485921, 2820302411, 3259730800, 3345764771,
   3516065817, 3600352804, 4094571909, 275423344,
   430227734, 506948616, 659060556, 883997877,
   958139571, 1322822218, 1537002063, 1747873779,
   1955562222, 2024104815, 2227730452, 2361852424,
   2428436474, 2756734187, 3204031479, 3329325298]

/-- One compression round. -/
def sha256Round (s : Sha8) (kw : Nat × Nat) : Sha8 :=
  let t1 := w32 (s.h + bSig1 s.e + ch32 s.e s.f s.g + kw.1 + kw.2)
  let t2 := w32 (bSig0 s.a + maj32 s.a s.b s.c)
  ⟨w32 (t1 + t2), s.a, s.b, s.c, w32 (s.d + t1), s.e, s.f, s.g⟩

/-- Compress one 64-byte block into the running hash state. -/
def sha256Block (s : Sha8) (chunk : List Nat) : Sha8 :=
  let t := (sha256K.zip (schedule chunk)).foldl sha256Round s
  ⟨w32 (s.a + t.a), w32 (s.b + t.b), w32 (s.c + t.c), w32 (s.d + t.d),
   w32 (s.e + t.e), w32 (s.f + t.f), w32 (s.g + t.g), w32 (s.h + t.h)⟩

/-- The SHA-256 initial hash value (FIPS 180-4), written in decimal. -/
def sha256Init : Sha8 :=
  ⟨1779033703, 3144134277, 1013904242, 2773480762,
   1359893119, 2600822924, 528734635, 1541459225⟩

/-- SHA-256 of a byte string. -/
def sha256Bytes (msg : List Nat) : Sha8 :=
  (chunks64 (sha256Pad msg)).foldl sha256Block sha256Init

/-- Lowercase hexadecimal digit. -/
def hexDigit (n : Nat) : Char := if n < 10 then Char.ofNat (48 + n) else Char.ofNat (87 + n)

/-- Eight hex characters of a 32-bit word, most significant first. -/
def wordHex (n : Nat) : List Char := (List.range 8).map (fun i => hexDigit ((n >>> (28 - 4 * i)) % 16))

/-- `hexdigest()`: the 64-character lowercase hex rendering of a digest. -/
def sha256Hex (s : Sha8) : String :=
  String.mk (wordHex s.a ++ wordHex s.b ++ wordHex s.c ++ wordHex s.d ++
    wordHex s.e ++ wordHex s.f ++ wordHex s.g ++ wordHex s.h)

/-- UTF-8 encoding of one character (`str.encode` acts codepoint-wise). -/
def utf8Bytes (c : Char) : List Nat :=
  let n := c.toNat
  if n < 128 then [n]
  else if n < 2048 then [192 + n / 64, 128 + n % 64]
  else if n < 65536 then [224 + n / 4096, 128 + (n / 64) % 64, 128 + n % 64]
  else [240 + n / 262144, 128 + (n / 4096) % 64, 128 + (n / 64) % 64, 128 + n % 64]

/-- `str.encode(password)`: the UTF-8 bytes of a string. -/
def strBytes (s : String) : List Nat := s.data.foldr (fun c acc => utf8Bytes c ++ acc) []

/-! ## Authenticator (`make_hashes` / `check_hashes`) -/

/-- `make_hashes(password)`: hex digest of the SHA-256 of the password. -/
def make_hashes (password : String) : String := sha256Hex (sha256Bytes (strBytes password))

/-- `check_hashes(password, hashed_text)`: hash the candidate and compare. -/
def check_hashes (password : String) (hashed_text : String) : Bool :=
  make_hashes password == hashed_text

/-! ## Credential store and session state -/

/-- The credential mapping, as the ordered key-value pairs of the Python
dict (keys unique by construction). -/
abbrev UserStore := List (String × String)

/-- Python dict lookup `d[k]` (first — and only — binding of the key). -/
def lookupKey {α : Type} : List (String × α) → String → Option α
  | [], _ => none
  | (k', v) :: rest, k => if k' = k then some v else lookupKey rest k

/-- Python dict assignment `d[k] = v`: replace in place if the key is
present (keeping its position), otherwise append at the end. -/
def dictInsert {α : Type} : List (String × α) → String → α → List (String × α)
  | [], k, v => [(k, v)]
  | (k', v') :: rest, k, v =>
      if k' = k then (k, v) :: rest else (k', v') :: dictInsert rest k v

/-- `load_users()`: unpickle `users.pkl`, or an empty dict when the file is
absent (`FileNotFoundError`).  The disk is modelled as `none` (no file) or
`some users` (a file holding the pickled mapping). -/
def load_users (disk : Option UserStore) : UserStore :=
  match disk with
  | some users => users
  | none => []

/-- The mutable state the auth flows touch: the in-session `users` dict,
the `users.pkl` file, and the session's authentication fields. -/
structure AppState where
  users : UserStore
  disk : Option UserStore
  authenticated : Bool
  username : Option String
deriving DecidableEq, Repr

/-- The message each branch of `login_page` surfaces. -/
inductive AuthMsg where
  /-- "Registration successful! Please login." -/
  | registerOk
  /-- "Username already exists" -/
  | duplicateUser
  /-- "Login successful!" -/
  | loginOk
  /-- "Incorrect password" -/
  | badPassword
  /-- "Username not found" -/
  | unknownUser
deriving DecidableEq, Repr

/-- `save_users(users)`: overwrite `users.pkl` with the mapping. -/
def save_users (st : AppState) (users : UserStore) : AppState :=
  { st with disk := some users }

/-- The Register branch of `login_page`: reject an existing username,
otherwise store the password hash and persist the mapping. -/
def registerUser (st : AppState) (new_username new_password : String) : AppState × AuthMsg :=
  if (lookupKey st.users new_username).isSome then
    (st, .duplicateUser)
  else
    let users := dictInsert st.users new_username (make_hashes new_password)
    (save_users { st with users := users } users, .registerOk)

/-- The Login branch of `login_page`: unknown username, wrong password, or
an authenticated session bound to the username. -/
def loginUser (st : AppState) (username password : String) : AppState × AuthMsg :=
  match lookupKey st.users username with
  | some stored =>
      if check_hashes password stored then
        ({ st with authenticated := true, username := some username }, .loginOk)
      else
        (st, .badPassword)
  | none => (st, .unknownUser)

/-! ## Session rating ledger (`st.session_state.user_ratings`) -/

/-- One value of the `user_ratings` dict: rating, review text and the
`time.time()` stamp at submission. -/
structure RatingEntry where
  rating : Nat
  review : String
  timestamp : ℚ
deriving DecidableEq, Repr

/-- The `user_ratings` dict, as ordered key-value pairs. -/
abbrev Ledger := List (String × RatingEntry)

/-- The Submit Rating branch: `user_ratings[selected_movie] = {...}`.
The current clock reading is passed in as `now`. -/
def submitRating (user_ratings : Ledger) (selected_movie : String) (rating : Nat)
    (review : String) (now : ℚ) : Ledger :=
  dictInsert user_ratings selected_movie ⟨rating, review, now⟩

/-- The titles in ledger order — the row order of the Rating History table,
since `pd.DataFrame.from_dict` keeps the dict's insertion order. -/
def ledgerTitles (led : Ledger) : List String := led.map Prod.fst

/-- One submission event: the form data plus the clock reading. -/
structure Submission where
  title : String
  rating : Nat
  review : String
  time : ℚ
deriving DecidableEq, Repr

/-- Run a sequence of submissions against an initially empty ledger. -/
def runSubmits (subs : List Submission) : Ledger :=
  subs.foldl (fun led s => submitRating led s.title s.rating s.review s.time) []

/-- The distinct members of a list in order of first occurrence. -/
def firstOccurrences (ts : List String) : List String :=
  ts.foldl (fun acc t => if t ∈ acc then acc else acc ++ [t]) []

/-- The position of a row in a row list — its frame index when applied to
the catalog, whose rows are pairwise distinct. -/
def idxIn (l : List Movie) (m : Movie) : Nat :=
  match l with
  | [] => 0
  | x :: xs => if x = m then 0 else idxIn xs m + 1

/-! ## Lemmas about the stable descending sort -/

/-- Membership through insertion. -/
theorem mem_insertRatingDesc {y m : Movie} {l : List Movie} :
    y ∈ insertRatingDesc m l ↔ y = m ∨ y ∈ l := by
  induction l with
  | nil => simp [insertRatingDesc]
  | cons x xs ih =>
      by_cases h : m.rating < x.rating
      · simp only [insertRatingDesc, if_pos h, List.mem_cons, ih]
        tauto
      · simp only [insertRatingDesc, if_neg h, List.mem_cons]

/-- Insertion permutes a cons. -/
theorem perm_insertRatingDesc (m : Movie) (l : List Movie) :
    insertRatingDesc m l ~ m :: l := by
  induction l with
  | nil => exact List.Perm.refl _
  | cons x xs ih =>
      by_cases h : m.rating < x.rating
      · simp only [insertRatingDesc, if_pos h]
        exact (ih.cons x).trans (List.Perm.swap m x xs)
      · simp only [insertRatingDesc, if_neg h]
        exact List.Perm.refl _

/-- The sort permutes its input. -/
theorem perm_sortRatingDesc (l : List Movie) : sortRatingDesc l ~ l := by
  induction l with
  | nil => exact List.Perm.refl _
  | cons x xs ih =>
      exact (perm_insertRatingDesc x (sortRatingDesc xs)).trans (ih.cons x)

/-- Insertion keeps the list ordered by decreasing rating. -/
theorem pairwise_insertRatingDesc {m : Movie} {l : List Movie}
    (h : l.Pairwise (fun a b => b.rating ≤ a.rating)) :
    (insertRatingDesc m l).Pairwise (fun a b => b.rating ≤ a.rating) := by
  induction l with
  | nil => simp [insertRatingDesc]
  | cons x xs ih =>
      rcases List.pairwise_cons.mp h with ⟨hx, hxs⟩
      by_cases hc : m.rating < x.rating
      · rw [insertRatingDesc, if_pos hc]
        refine List.pairwise_cons.mpr ⟨?_, ih hxs⟩
        intro y hy
        rcases mem_insertRatingDesc.mp hy with rfl | hyx
        · exact le_of_lt hc
        · exact hx y hyx
      · rw [insertRatingDesc, if_neg hc]
        refine List.pairwise_cons.mpr ⟨?_, h⟩
        intro y hy
        rcases List.mem_cons.mp hy with rfl | hyx
        · exact le_of_not_lt hc
        · exact le_trans (hx y hyx) (le_of_not_lt hc)

/-- The sort's output is ordered by decreasing rating. -/
theorem pairwise_sortRatingDesc (l : List Movie) :
    (sortRatingDesc l).Pairwise (fun a b => b.rating ≤ a.rating) := by
  induction l with
  | nil => simp [sortRatingDesc]
  | cons x xs ih => exact pairwise_insertRatingDesc ih

/-- Rows of some other rating are untouched by an insertion. -/
theorem filter_insertRatingDesc_ne {m : Movie} {q : ℚ} (hne : m.rating ≠ q) (l : List Movie) :
    (insertRatingDesc m l).filter (fun x => decide (x.rating = q)) =
      l.filter (fun x => decide (x.rating = q)) := by
  induction l with
  | nil => simp [insertRatingDesc, hne]
  | cons x xs ih =>
      by_cases hc : m.rating < x.rating
      · rw [insertRatingDesc, if_pos hc, List.filter_cons, List.filter_cons, ih]
      · rw [insertRatingDesc, if_neg hc, List.filter_cons]
        simp [hne]

/-- Inserting a row into a descending-sorted list puts it in front of the
rows of equal rating already present. -/
theorem filter_insertRatingDesc_eq {m : Movie} {l : List Movie}
    (hs : l.Pairwise (fun a b => b.rating ≤ a.rating)) {q : ℚ} (hm : m.rating = q) :
    (insertRatingDesc m l).filter (fun x => decide (x.rating = q)) =
      m :: l.filter (fun x => decide (x.rating = q)) := by
  induction l with
  | nil => simp [insertRatingDesc, hm]
  | cons x xs ih =>
      rcases List.pairwise_cons.mp hs with ⟨hx, hxs⟩
      by_cases hc : m.rating < x.rating
      · have hxq : x.rating ≠ q := by
          intro h
          rw [hm, h] at hc
          exact lt_irrefl q hc
        rw [insertRatingDesc, if_pos hc, List.filter_cons, ih hxs]
        simp [hxq]
      · rw [insertRatingDesc, if_neg hc, List.filter_cons]
        simp [hm]

/-- Stability: restricted to any one rating value, the sort is the
identity, so rows of equal rating keep their original relative order. -/
theorem filter_sortRatingDesc (q : ℚ) (l : List Movie) :
    (sortRatingDesc l).filter (fun x => decide (x.rating = q)) =
      l.filter (fun x => decide (x.rating = q)) := by
  induction l with
  | nil => rfl
  | cons x xs ih =>
      by_cases hx : x.rating = q
      · rw [sortRatingDesc, filter_insertRatingDesc_eq (pairwise_sortRatingDesc xs) hx, ih,
          List.filter_cons]
        simp [hx]
      · rw [sortRatingDesc, filter_insertRatingDesc_ne hx, ih, List.filter_cons]
        simp [hx]

/-- In a duplicate-free list, a two-element sublist orders the positions. -/
theorem idxIn_lt_of_pair_sublist {a b : Movie} : ∀ {l : List Movie},
    [a, b] <+ l → l.Nodup → idxIn l a < idxIn l b := by
  intro l
  induction l with
  | nil =>
      intro h _
      have h2 := h.length_le
      simp at h2
  | cons x xs ih =>
      intro h hnd
      rcases List.nodup_cons.mp hnd with ⟨hx, hxs⟩
      cases h with
      | cons _ h' =>
          have ha : a ∈ xs := h'.subset (by simp)
          have hb : b ∈ xs := h'.subset (by simp)
          have hxa : x ≠ a := fun e => hx (e ▸ ha)
          have hxb : x ≠ b := fun e => hx (e ▸ hb)
          simpa [idxIn, hxa, hxb] using ih h' hxs
      | cons₂ _ h' =>
          have hb : b ∈ xs := List.singleton_sublist.mp h'
          have hab : a ≠ b := fun e => hx (e ▸ hb)
          simp [idxIn, hab]

/-! ## Lemmas about the dict operations -/

/-- After `d[k] = v`, looking up `k` yields `v`. -/
theorem lookupKey_dictInsert_self {α : Type} (l : List (String × α)) (k : String) (v : α) :
    lookupKey (dictInsert l k v) k = some v := by
  induction l with
  | nil => simp [dictInsert, lookupKey]
  | cons p rest ih =>
      obtain ⟨q, w⟩ := p
      by_cases h : q = k
      · simp [dictInsert, h, lookupKey]
      · simp [dictInsert, h, lookupKey, ih]

/-- After `d[k] = v`, every other key is bound as before. -/
theorem lookupKey_dictInsert_ne {α : Type} (l : List (String × α)) {k u : String} (v : α)
    (hne : u ≠ k) : lookupKey (dictInsert l k v) u = lookupKey l u := by
  have hku : ¬k = u := fun e => hne e.symm
  induction l with
  | nil => simp [dictInsert, lookupKey, hku]
  | cons p rest ih =>
      obtain ⟨q, w⟩ := p
      by_cases h : q = k
      · subst h
        simp [dictInsert, lookupKey, hku]
      · simp [dictInsert, h, lookupKey, ih]

/-- `d[k] = v` keeps the key order, appending `k` only when it is new. -/
theorem keys_dictInsert {α : Type} (l : List (String × α)) (k : String) (v : α) :
    (dictInsert l k v).map Prod.fst =
      if k ∈ l.map Prod.fst then l.map Prod.fst else l.map Prod.fst ++ [k] := by
  induction l with
  | nil => simp [dictInsert]
  | cons p rest ih =>
      obtain ⟨q, w⟩ := p
      by_cases h : q = k
      · simp [dictInsert, h]
      · have hkq : ¬k = q := fun e => h e.symm
        simp only [dictInsert, if_neg h, List.map_cons, List.mem_cons, hkq, false_or, ih]
        by_cases hm : k ∈ rest.map Prod.fst
        · simp [hm]
        · simp [hm]

/-- Binding a key leaves the keys duplicate-free. -/
theorem nodup_keys_dictInsert {α : Type} (l : List (String × α)) (k : String) (v : α)
    (hnd : (l.map Prod.fst).Nodup) : ((dictInsert l k v).map Prod.fst).Nodup := by
  rw [keys_dictInsert]
  by_cases hm : k ∈ l.map Prod.fst
  · simp [hm, hnd]
  · simp [hm, List.nodup_append, hnd]

/-- With duplicate-free keys, the entries carrying key `k` after `d[k] = v`
are exactly the single new binding. -/
theorem filter_key_dictInsert {α : Type} (l : List (String × α)) (k : String) (v : α)
    (hnd : (l.map Prod.fst).Nodup) :
    (dictInsert l k v).filter (fun e => decide (e.1 = k)) = [(k, v)] := by
  induction l with
  | nil => simp [dictInsert]
  | cons p rest ih =>
      obtain ⟨q, w⟩ := p
      rcases List.nodup_cons.mp hnd with ⟨hq, hrest⟩
      by_cases h : q = k
      · subst h
        have hfilter : rest.filter (fun e => decide (e.1 = q)) = [] := by
          rw [List.filter_eq_nil_iff]
          intro e he
          simp only [decide_eq_true_eq]
          intro hek
          apply hq
          show q ∈ List.map Prod.fst rest
          rw [← hek]
          exact List.mem_map_of_mem Prod.fst he
        simp [dictInsert, List.filter_cons, hfilter]
      · simp only [dictInsert, if_neg h, List.filter_cons, decide_eq_true_eq]
        exact ih hrest

/-- The row order of the Rating History table after one submission: an
already-rated title keeps its position, a new title goes to the end. -/
theorem titles_submitRating (led : Ledger) (t : String) (r : Nat) (rev : String) (now : ℚ) :
    ledgerTitles (submitRating led t r rev now) =
      if t ∈ ledgerTitles led then ledgerTitles led else ledgerTitles led ++ [t] :=
  keys_dictInsert led t ⟨r, rev, now⟩

/-- Folding submissions over any starting ledger accumulates first
occurrences of the submitted titles onto the starting titles. -/
theorem titles_foldl_submits (subs : List Submission) : ∀ led : Ledger,
    ledgerTitles (subs.foldl (fun l s => submitRating l s.title s.rating s.review s.time) led) =
      (subs.map Submission.title).foldl
        (fun acc t => if t ∈ acc then acc else acc ++ [t]) (ledgerTitles led) := by
  induction subs with
  | nil => intro led; rfl
  | cons s ss ih =>
      intro led
      simp only [List.foldl_cons, List.map_cons]
      rw [ih, titles_submitRating]

/-! ## The claims about the query engine -/

/-- C1: on the fixed ten-movie catalog, the recommendation query with genre
substring "Crime", minimum rating 8.5 and year range [1970, 2000] returns
exactly The Godfather (9.2), Pulp Fiction (8.9) and Goodfellas (8.7), in
descending order of rating. -/
theorem crime_query_returns_three_crime_films :
    get_recommendations load_data "Crime" (mkRat 85 10) (1970, 2000) =
      [ ⟨"The Godfather", "Crime", 1972, mkRat 92 10, 1700000, "Francis Ford Coppola", 175, mkRat 2451 10⟩,
        ⟨"Pulp Fiction", "Crime", 1994, mkRat 89 10, 1900000, "Quentin Tarantino", 154, mkRat 2139 10⟩,
        ⟨"Goodfellas", "Crime", 1990, mkRat 87 10, 1000000, "Martin Scorsese", 146, mkRat 471 10⟩ ] := by
  decide

/-- C2 is false as stated: with the empty genre substring, rating floor 0
and year range [1900, 2020], The Silence of the Lambs satisfies the filter
predicate and is a catalog row, yet the query's five-row truncation drops
it, so membership in the result is not equivalent to the predicate. -/
theorem rec_membership_counterexample :
    recPred "" 0 (1900, 2020)
        ⟨"The Silence of the Lambs", "Thriller", 1991, mkRat 86 10, 1300000, "Jonathan Demme", 118, mkRat 2727 10⟩ = true ∧
    (⟨"The Silence of the Lambs", "Thriller", 1991, mkRat 86 10, 1300000, "Jonathan Demme", 118, mkRat 2727 10⟩ : Movie) ∈ load_data ∧
    (⟨"The Silence of the Lambs", "Thriller", 1991, mkRat 86 10, 1300000, "Jonathan Demme", 118, mkRat 2727 10⟩ : Movie) ∉
      get_recommendations load_data "" 0 (1900, 2020) := by
  decide

/-- C2 (amended): every row the recommendation query returns is a catalog
row satisfying the predicate (genre contains the substring
case-insensitively, rating at least the floor, year inside the inclusive
range); and whenever at most five catalog rows satisfy the predicate, a
catalog row is returned if and only if it satisfies the predicate. -/
theorem rec_membership_characterization (movies : List Movie) (g : String) (r : ℚ)
    (lo hi : Int) :
    (∀ m ∈ get_recommendations movies g r (lo, hi),
      m ∈ movies ∧ recPred g r (lo, hi) m = true) ∧
    ((movies.filter (recPred g r (lo, hi))).length ≤ 5 →
      ∀ m ∈ movies,
        (m ∈ get_recommendations movies g r (lo, hi) ↔ recPred g r (lo, hi) m = true)) := by
  constructor
  · intro m hm
    have h1 : m ∈ sortRatingDesc (movies.filter (recPred g r (lo, hi))) :=
      (List.take_sublist 5 _).subset hm
    exact List.mem_filter.mp ((perm_sortRatingDesc _).mem_iff.mp h1)
  · intro hlen m hm
    have hslen : (sortRatingDesc (movies.filter (recPred g r (lo, hi)))).length ≤ 5 := by
      rw [(perm_sortRatingDesc _).length_eq]
      exact hlen
    constructor
    · intro hmem
      have h1 : m ∈ sortRatingDesc (movies.filter (recPred g r (lo, hi))) :=
        (List.take_sublist 5 _).subset hmem
      exact (List.mem_filter.mp ((perm_sortRatingDesc _).mem_iff.mp h1)).2
    · intro hpred
      have h3 : m ∈ sortRatingDesc (movies.filter (recPred g r (lo, hi))) :=
        (perm_sortRatingDesc _).mem_iff.mpr (List.mem_filter.mpr ⟨hm, hpred⟩)
      show m ∈ (sortRatingDesc (movies.filter (recPred g r (lo, hi)))).take 5
      rw [List.take_of_length_le hslen]
      exact h3

/-- C2 amended witness: the Crime query at The Godfather. -/
theorem rec_membership_characterization_witness :
    ((⟨"The Godfather", "Crime", 1972, mkRat 92 10, 1700000, "Francis Ford Coppola", 175, mkRat 2451 10⟩ : Movie) ∈ load_data ∧
      recPred "Crime" (mkRat 85 10) (1970, 2000)
        ⟨"The Godfather", "Crime", 1972, mkRat 92 10, 1700000, "Francis Ford Coppola", 175, mkRat 2451 10⟩ = true) ∧
    ((⟨"The Godfather", "Crime", 1972, mkRat 92 10, 1700000, "Francis Ford Coppola", 175, mkRat 2451 10⟩ : Movie) ∈
        get_recommendations load_data "Crime" (mkRat 85 10) (1970, 2000) ↔
      recPred "Crime" (mkRat 85 10) (1970, 2000)
        ⟨"The Godfather", "Crime", 1972, mkRat 92 10, 1700000, "Francis Ford Coppola", 175, mkRat 2451 10⟩ = true) :=
  ⟨(rec_membership_characterization load_data "Crime" (mkRat 85 10) 1970 2000).1 _ (by decide),
   (rec_membership_characterization load_data "Crime" (mkRat 85 10) 1970 2000).2 (by decide) _ (by decide)⟩

/-- C3: the recommendation query's output is ordered by decreasing rating,
and two returned rows of equal rating appear in the output in their
original catalog order (ties are stable). -/
theorem rec_sorted_desc_and_stable (g : String) (r : ℚ) (lo hi : Int) :
    (get_recommendations load_data g r (lo, hi)).Pairwise (fun a b => b.rating ≤ a.rating) ∧
    (∀ a b, [a, b] <+ get_recommendations load_data g r (lo, hi) →
      a.rating = b.rating → idxIn load_data a < idxIn load_data b) := by
  constructor
  · exact List.Pairwise.sublist (List.take_sublist 5 _) (pairwise_sortRatingDesc _)
  · intro a b hsub heq
    have h1 : [a, b] <+ sortRatingDesc (load_data.filter (recPred g r (lo, hi))) :=
      hsub.trans (List.take_sublist 5 _)
    have hfab : ([a, b].filter (fun x => decide (x.rating = a.rating))) = [a, b] := by
      simp [List.filter_cons, heq.symm]
    have h2 : [a, b] <+
        (sortRatingDesc (load_data.filter (recPred g r (lo, hi)))).filter
          (fun x => decide (x.rating = a.rating)) := by
      rw [← hfab]
      exact List.Sublist.filter _ h1
    rw [filter_sortRatingDesc] at h2
    have h3 : [a, b] <+ load_data :=
      h2.trans ((List.filter_sublist _).trans (List.filter_sublist _))
    exact idxIn_lt_of_pair_sublist h3 (by decide)

/-- C3 witness: the Sci-Fi query returns the tied 8.7 rows The Matrix and
Star Wars: Episode V in catalog order. -/
theorem rec_sorted_desc_and_stable_witness :
    idxIn load_data ⟨"The Matrix", "Sci-Fi", 1999, mkRat 87 10, 1700000, "Lana Wachowski", 136, mkRat 4635 10⟩ <
      idxIn load_data ⟨"Star Wars: Episode V", "Sci-Fi", 1980, mkRat 87 10, 1200000, "Irvin Kershner", 124, mkRat 5384 10⟩ := by
  apply (rec_sorted_desc_and_stable "Sci-Fi" (mkRat 85 10) 1970 2010).2
  · rw [show get_recommendations load_data "Sci-Fi" (mkRat 85 10) (1970, 2010) =
      [ ⟨"The Matrix", "Sci-Fi", 1999, mkRat 87 10, 1700000, "Lana Wachowski", 136, mkRat 4635 10⟩,
        ⟨"Star Wars: Episode V", "Sci-Fi", 1980, mkRat 87 10, 1200000, "Irvin Kershner", 124, mkRat 5384 10⟩ ] from by decide]
  · decide

/-- C4: whenever more than five catalog rows satisfy the predicate, the
query returns exactly five rows, all of them matching rows, and every
matching row left out rates no higher than any returned row. -/
theorem rec_truncates_to_top_five (g : String) (r : ℚ) (lo hi : Int)
    (h : 5 < (load_data.filter (recPred g r (lo, hi))).length) :
    (get_recommendations load_data g r (lo, hi)).length = 5 ∧
    (∀ a ∈ get_recommendations load_data g r (lo, hi),
      a ∈ load_data.filter (recPred g r (lo, hi))) ∧
    (∀ a ∈ get_recommendations load_data g r (lo, hi),
      ∀ b ∈ load_data.filter (recPred g r (lo, hi)),
        b ∉ get_recommendations load_data g r (lo, hi) → b.rating ≤ a.rating) := by
  have hslen : (sortRatingDesc (load_data.filter (recPred g r (lo, hi)))).length =
      (load_data.filter (recPred g r (lo, hi))).length :=
    (perm_sortRatingDesc _).length_eq
  refine ⟨?_, ?_, ?_⟩
  · show ((sortRatingDesc (load_data.filter (recPred g r (lo, hi)))).take 5).length = 5
    rw [List.length_take, hslen]
    exact min_eq_left (Nat.le_of_lt h)
  · intro a ha
    exact (perm_sortRatingDesc _).mem_iff.mp ((List.take_sublist 5 _).subset ha)
  · intro a ha b hb hbnot
    have hbs : b ∈ sortRatingDesc (load_data.filter (recPred g r (lo, hi))) :=
      (perm_sortRatingDesc _).mem_iff.mpr hb
    rw [← List.take_append_drop 5 (sortRatingDesc (load_data.filter (recPred g r (lo, hi))))]
      at hbs
    have hbdrop : b ∈ (sortRatingDesc (load_data.filter (recPred g r (lo, hi)))).drop 5 := by
      rcases List.mem_append.mp hbs with h1 | h2
      · exact absurd h1 hbnot
      · exact h2
    have hpw := pairwise_sortRatingDesc (load_data.filter (recPred g r (lo, hi)))
    rw [← List.take_append_drop 5 (sortRatingDesc (load_data.filter (recPred g r (lo, hi))))]
      at hpw
    exact (List.pairwise_append.mp hpw).2.2 a ha b hbdrop

/-- C4 witness: the all-pass filter matches all ten rows and the query
returns exactly five. -/
theorem rec_truncates_to_top_five_witness :
    (get_recommendations load_data "" 0 (1900, 2020)).length = 5 :=
  (rec_truncates_to_top_five "" 0 1900 2020 (by decide)).1

/-! ## The claims about authentication and the credential store -/

/-- C5: hashing is deterministic — equal passwords hash to equal digests —
and verifying any password against its own hash succeeds. -/
theorem hash_deterministic_and_self_verifies (p q : String) :
    (p = q → make_hashes p = make_hashes q) ∧ check_hashes p (make_hashes p) = true := by
  refine ⟨fun h => by rw [h], ?_⟩
  simp [check_hashes]

/-- C5 witness at the password "pw". -/
theorem hash_deterministic_and_self_verifies_witness :
    make_hashes "pw" = make_hashes "pw" ∧ check_hashes "pw" (make_hashes "pw") = true :=
  ⟨(hash_deterministic_and_self_verifies "pw" "pw").1 rfl,
   (hash_deterministic_and_self_verifies "pw" "pw").2⟩

/-- C6: registering a username already in the store fails with the
duplicate-user message and leaves the whole state — in particular the
stored digest — unchanged; registering an absent username binds it to the
password's hash, leaves every other key's binding unchanged, and persists
the updated mapping to disk. -/
theorem register_duplicate_and_insert (st : AppState) (u p : String) :
    ((lookupKey st.users u).isSome = true →
      registerUser st u p = (st, AuthMsg.duplicateUser)) ∧
    (lookupKey st.users u = none →
      (registerUser st u p).2 = AuthMsg.registerOk ∧
      lookupKey (registerUser st u p).1.users u = some (make_hashes p) ∧
      (∀ w, w ≠ u → lookupKey (registerUser st u p).1.users w = lookupKey st.users w) ∧
      (registerUser st u p).1.disk = some (registerUser st u p).1.users) := by
  constructor
  · intro h
    simp [registerUser, h]
  · intro h
    have hs : (lookupKey st.users u).isSome = false := by rw [h]; rfl
    refine ⟨?_, ?_, ?_, ?_⟩
    · simp [registerUser, hs]
    · simp [registerUser, hs, save_users, lookupKey_dictInsert_self]
    · intro w hw
      simp only [registerUser, hs, Bool.false_eq_true, if_false, save_users]
      exact lookupKey_dictInsert_ne st.users _ hw
    · simp [registerUser, hs, save_users]

/-- C6 witness: a duplicate registration is rejected unchanged, and a fresh
registration binds the new username to its password hash. -/
theorem register_duplicate_and_insert_witness :
    registerUser ⟨[("alice", "h1")], some [("alice", "h1")], false, none⟩ "alice" "pw" =
      (⟨[("alice", "h1")], some [("alice", "h1")], false, none⟩, AuthMsg.duplicateUser) ∧
    lookupKey (registerUser ⟨[("alice", "h1")], some [("alice", "h1")], false, none⟩
        "bob" "pw2").1.users "bob" = some (make_hashes "pw2") :=
  ⟨(register_duplicate_and_insert ⟨[("alice", "h1")], some [("alice", "h1")], false, none⟩
      "alice" "pw").1 (by decide),
   ((register_duplicate_and_insert ⟨[("alice", "h1")], some [("alice", "h1")], false, none⟩
      "bob" "pw2").2 (by decide)).2.1⟩

/-- C7: login with a username absent from the store fails with the
unknown-user message and changes nothing; login with a present username
whose stored digest does not verify fails with the bad-password message
and changes nothing; otherwise login succeeds and the session becomes
authenticated and bound to that username. -/
theorem login_case_analysis (st : AppState) (u p : String) :
    (lookupKey st.users u = none → loginUser st u p = (st, AuthMsg.unknownUser)) ∧
    (∀ d, lookupKey st.users u = some d → check_hashes p d = false →
      loginUser st u p = (st, AuthMsg.badPassword)) ∧
    (∀ d, lookupKey st.users u = some d → check_hashes p d = true →
      (loginUser st u p).2 = AuthMsg.loginOk ∧
      (loginUser st u p).1.authenticated = true ∧
      (loginUser st u p).1.username = some u ∧
      (loginUser st u p).1.users = st.users ∧
      (loginUser st u p).1.disk = st.disk) := by
  refine ⟨?_, ?_, ?_⟩
  · intro h
    simp [loginUser, h]
  · intro d hd hc
    simp [loginUser, hd, hc]
  · intro d hd hc
    simp [loginUser, hd, hc]

/-- C7 witness: against a store holding the SHA-256 digest of "pw" under
"alice", an unknown name, a wrong password and the right password hit the
three branches. -/
theorem login_case_analysis_witness :
    loginUser ⟨[("alice", "30c952fab122c3f9759f02a6d95c3758b246b4fee239957b2d4fee46e26170c4")],
        none, false, none⟩ "bob" "pw" =
      (⟨[("alice", "30c952fab122c3f9759f02a6d95c3758b246b4fee239957b2d4fee46e26170c4")],
        none, false, none⟩, AuthMsg.unknownUser) ∧
    loginUser ⟨[("alice", "30c952fab122c3f9759f02a6d95c3758b246b4fee239957b2d4fee46e26170c4")],
        none, false, none⟩ "alice" "wrong" =
      (⟨[("alice", "30c952fab122c3f9759f02a6d95c3758b246b4fee239957b2d4fee46e26170c4")],
        none, false, none⟩, AuthMsg.badPassword) ∧
    (loginUser ⟨[("alice", "30c952fab122c3f9759f02a6d95c3758b246b4fee239957b2d4fee46e26170c4")],
        none, false, none⟩ "alice" "pw").2 = AuthMsg.loginOk ∧
    (loginUser ⟨[("alice", "30c952fab122c3f9759f02a6d95c3758b246b4fee239957b2d4fee46e26170c4")],
        none, false, none⟩ "alice" "pw").1.authenticated = true ∧
    (loginUser ⟨[("alice", "30c952fab122c3f9759f02a6d95c3758b246b4fee239957b2d4fee46e26170c4")],
        none, false, none⟩ "alice" "pw").1.username = some "alice" :=
  ⟨(login_case_analysis _ "bob" "pw").1 (by decide),
   (login_case_analysis _ "alice" "wrong").2.1
     "30c952fab122c3f9759f02a6d95c3758b246b4fee239957b2d4fee46e26170c4" (by decide) (by decide),
   ((login_case_analysis _ "alice" "pw").2.2
     "30c952fab122c3f9759f02a6d95c3758b246b4fee239957b2d4fee46e26170c4" (by decide) (by decide)).1,
   ((login_case_analysis _ "alice" "pw").2.2
     "30c952fab122c3f9759f02a6d95c3758b246b4fee239957b2d4fee46e26170c4" (by decide) (by decide)).2.1,
   ((login_case_analysis _ "alice" "pw").2.2
     "30c952fab122c3f9759f02a6d95c3758b246b4fee239957b2d4fee46e26170c4" (by decide) (by decide)).2.2.1⟩

/-- C8: when `users.pkl` is absent, `load_users` returns the empty mapping
instead of raising. -/
theorem load_users_missing_file_empty : load_users none = [] := rfl

/-! ## The claims about the session rating ledger -/

/-- C9: submitting a rating for a title and then submitting again for the
same title leaves exactly one ledger entry for that title, and it holds the
second rating, review text and timestamp. -/
theorem resubmit_overwrites_single_entry (led : Ledger)
    (hnd : (ledgerTitles led).Nodup) (t : String) (r1 : Nat) (rev1 : String) (ts1 : ℚ)
    (r2 : Nat) (rev2 : String) (ts2 : ℚ) :
    (submitRating (submitRating led t r1 rev1 ts1) t r2 rev2 ts2).filter
      (fun e => decide (e.1 = t)) = [(t, ⟨r2, rev2, ts2⟩)] :=
  filter_key_dictInsert _ t _ (nodup_keys_dictInsert led t ⟨r1, rev1, ts1⟩ hnd)

/-- C9 witness: rating "Inception" 7 then 9 in a fresh session leaves one
entry with rating 9 and the second review and timestamp. -/
theorem resubmit_overwrites_single_entry_witness :
    (submitRating (submitRating [] "Inception" 7 "meh" 0) "Inception" 9 "rewatched" 1).filter
      (fun e => decide (e.1 = "Inception")) = [("Inception", ⟨9, "rewatched", 1⟩)] :=
  resubmit_overwrites_single_entry [] (by simp [ledgerTitles]) "Inception" 7 "meh" 0 9 "rewatched" 1

/-- C10: for every sequence of submissions in a session, the titles listed
in the Rating History appear in the order of their first submissions;
resubmitting never moves a title. -/
theorem rating_history_order_is_first_submission_order (subs : List Submission) :
    ledgerTitles (runSubmits subs) = firstOccurrences (subs.map Submission.title) :=
  titles_foldl_submits subs []
